import Mathlib

/-!
Verification of the notebook URL scanner (`src/experiments/notebooks/grep.py`).

The script walks a directory, parses each file as JSON, scans code cells of
each parsed notebook for lines calling `pd.read_csv` with an `http(s)://` URL,
extracts the first quoted URL per line with the regular expression
`(https?://.+?)['\"]`, accumulates the URLs in a set, and finally writes the
sorted set to `urls.txt`, one URL per line.

The embedding below mirrors the script statement by statement.  JSON parsing
itself is Python library code, so a directory entry is modelled by its parse
outcome: `none` for a file raising `JSONDecodeError`/`UnicodeDecodeError`,
`some nb` for a parsed notebook.  Python runtime errors that the script can
raise (`NameError` from the unbound `nb` after a failed first parse, `KeyError`
from `cell["cell_type"]`/`cell["source"]`, `IndexError` from
`re.findall(...)[0]`) are modelled with `Except`.
-/

/-- A cell of a parsed notebook.  Python reads `cell["cell_type"]` and
`cell["source"]` with bracket access, which raises `KeyError` when the key is
absent, so both fields are `Option`s with `none` meaning "key absent". -/
inductive CellSource where
  | str (s : String)
  | lines (ls : List String)
  deriving DecidableEq, Repr

/-- A notebook cell: `cell_type` and `source` keys, each possibly absent. -/
structure Cell where
  cellType : Option String
  src : Option CellSource
  deriving DecidableEq, Repr

/-- A parsed notebook document: the `"cells"` key, possibly absent.
The script reads it with `nb.get("cells", [])`, defaulting to `[]`. -/
structure Notebook where
  cells : Option (List Cell)
  deriving DecidableEq, Repr

/-- The Python runtime errors the scan loop can raise uncaught. -/
inductive RunError where
  | nameError
  | keyError
  | indexError
  deriving DecidableEq, Repr

/-- Bracket access `d[k]`: `KeyError` when the key is absent. -/
def getKey {α : Type} : Option α → Except RunError α
  | some a => Except.ok a
  | none => Except.error RunError.keyError

/-- The quote characters of the regex character class `['\"]`. -/
def isQuote (c : Char) : Bool := c = '\'' || c = '"'

/-- Length of the scheme matched by `https?://` at the head of `l`
(`s?` is greedy, but the two alternatives cannot both match). -/
def schemeLen (l : List Char) : Option Nat :=
  if "https://".toList.isPrefixOf l then some 8
  else if "http://".toList.isPrefixOf l then some 7
  else none

/-- After the first character consumed by `.+?`: number of further characters
consumed before the terminating quote.  `some j` means `l` has a quote at
index `j` and only non-quote, non-newline characters before it (the regex `.`
does not match a newline). -/
def findTermAfter : List Char → Option Nat
  | [] => none
  | c :: cs =>
      if isQuote c then some 0
      else if c = '\n' then none
      else (findTermAfter cs).map (· + 1)

/-- Number of characters consumed by `.+?` (at least one) before the
terminating quote of `['\"]`, for the text `l` following the scheme.
The first character is always consumed, even a quote, since `.+?` must
consume at least one character before the first terminator can match. -/
def findTerm : List Char → Option Nat
  | [] => none
  | c :: cs =>
      if c = '\n' then none
      else (findTermAfter cs).map (· + 1)

/-- Attempt of `(https?://.+?)['\"]` anchored at the head of `l`; returns the
captured group (scheme plus the characters consumed by `.+?`). -/
def matchAt (l : List Char) : Option (List Char) :=
  match schemeLen l with
  | none => none
  | some m =>
      match findTerm (l.drop m) with
      | none => none
      | some k => some (l.take (m + k))

/-- First (leftmost) match of `re.findall(r"(https?://.+?)['\"]", line)`:
the regex engine tries each start position left to right. -/
def reFirstAux : List Char → Option (List Char)
  | [] => none
  | c :: cs =>
      match matchAt (c :: cs) with
      | some cap => some cap
      | none => reFirstAux cs

/-- `re.findall(r"(https?://.+?)['\"]", line)[0]` when a match exists. -/
def reFirst (line : String) : Option String :=
  (reFirstAux line.toList).map List.asString

/-- Substring occurrence at some position: `p` is a prefix of `l` or occurs
in its tail.  (The empty pattern occurs in every string, as in Python.) -/
def containsSubAux (p : List Char) : List Char → Bool
  | [] => p.isEmpty
  | c :: cs => p.isPrefixOf (c :: cs) || containsSubAux p cs

/-- Python's `pat in line` substring test. -/
def containsSub (pat line : String) : Bool :=
  containsSubAux pat.toList line.toList

/-- Helper for `splitNl`: the accumulator holds the current piece reversed. -/
def splitNlAux : List Char → List Char → List String
  | [], acc => [acc.reverse.asString]
  | c :: cs, acc =>
      if c = '\n' then acc.reverse.asString :: splitNlAux cs []
      else splitNlAux cs (c :: acc)

/-- Python's `source.split("\n")`: split on every newline, keeping empty
pieces (so `"a\nb\n"` gives `["a", "b", ""]` and `""` gives `[""]`). -/
def splitNl (s : String) : List String :=
  splitNlAux s.toList []

/-- The body of the per-line loop: the two substring guards, then the
unguarded `re.findall(...)[0]` which raises `IndexError` when the guard
passed but the regex finds no match.  `ok none` means the line contributes
no URL; `ok (some u)` means `u` is added to the set. -/
def processLine (line : String) : Except RunError (Option String) :=
  if !(containsSub "pd.read_csv" line) then Except.ok none
  else if !(containsSub "https://" line || containsSub "http://" line) then Except.ok none
  else
    match reFirst line with
    | some u => Except.ok (some u)
    | none => Except.error RunError.indexError

/-- The per-line loop over a cell's normalized source lines, in order,
collecting the URLs added to the set. -/
def processLines : List String → Except RunError (List String)
  | [] => Except.ok []
  | l :: ls => do
      let u ← processLine l
      let rest ← processLines ls
      return (match u with
              | some v => v :: rest
              | none => rest)

/-- The body of the per-cell loop: skip non-`"code"` cells (after the
`KeyError`-prone read of `cell_type`), skip falsy sources, normalize a string
source by splitting on `"\n"`, then scan the lines. -/
def processCell (cell : Cell) : Except RunError (List String) := do
  let ct ← getKey cell.cellType
  if ct ≠ "code" then return []
  else do
    let s ← getKey cell.src
    match s with
    | CellSource.str t => if t = "" then return [] else processLines (splitNl t)
    | CellSource.lines ls => if ls = [] then return [] else processLines ls

/-- The per-cell loop over a notebook's cells, in order. -/
def processCells : List Cell → Except RunError (List String)
  | [] => Except.ok []
  | c :: cs => do
      let us ← processCell c
      let rest ← processCells cs
      return us ++ rest

/-- Scanning one parsed notebook: `for cell in nb.get("cells", []): ...`. -/
def processNotebook (nb : Notebook) : Except RunError (List String) :=
  processCells (nb.cells.getD [])

/-- A directory entry: the file's name and its parse outcome (`none` when
`json.load` raises `JSONDecodeError` or `UnicodeDecodeError`). -/
def DirEntry : Type := String × Option Notebook

instance : DecidableEq DirEntry := instDecidableEqProd

/-- The mutable state of the scan loop: the Python variable `nb` (`none`
while still unbound), the accumulated URL set, and the names of the files
removed so far. -/
structure ScanState where
  nb : Option Notebook
  urls : Finset String
  removed : List String
  deriving DecidableEq

/-- The loop body for one directory entry.  On parse failure the script
prints `removing ...`, deletes the file and falls through (no `continue`), so
the cell loop runs against the *previous* value of `nb`; if no earlier file
parsed, Python raises `NameError` at `nb.get`. -/
def stepFile (st : ScanState) (entry : DirEntry) : Except RunError ScanState :=
  let upd : Option Notebook × List String :=
    match entry.2 with
    | some n => (some n, st.removed)
    | none => (st.nb, st.removed ++ [entry.1])
  match upd.1 with
  | none => Except.error RunError.nameError
  | some n =>
      match processNotebook n with
      | Except.error e => Except.error e
      | Except.ok us =>
          Except.ok { nb := some n, urls := st.urls ∪ us.toFinset, removed := upd.2 }

/-- The directory loop from a given state. -/
def runScanFrom : ScanState → List DirEntry → Except RunError ScanState
  | st, [] => Except.ok st
  | st, e :: es =>
      match stepFile st e with
      | Except.error err => Except.error err
      | Except.ok st' => runScanFrom st' es

/-- The state before the loop: `nb` unbound, `urls = set()`, nothing removed. -/
def initState : ScanState := ⟨none, ∅, []⟩

/-- The whole scan loop over the directory listing. -/
def runScan (dir : List DirEntry) : Except RunError ScanState :=
  runScanFrom initState dir

/-- `sorted(urls)`: Python sorts strings lexicographically by code point,
as does `List Char`'s lexicographic order underlying `String`'s. -/
def sortedUrls (urls : Finset String) : List String :=
  urls.sort (· ≤ ·)

/-- The contents written to `urls.txt` (opened with mode `"wt"`, so any prior
contents are discarded): each URL of the sorted set, then a newline. -/
def outputContent (urls : Finset String) : String :=
  String.join ((sortedUrls urls).map (fun u => u ++ "\n"))

/-- The lines of the output file produced by a completed run. -/
def runOutput (dir : List DirEntry) : Except RunError (List String) :=
  (runScan dir).map (fun st => sortedUrls st.urls)

/-- The notebooks whose URLs persist into the final set: a corrupt entry
re-scans the previously parsed notebook, contributing nothing new. -/
def nbUrls (n : Notebook) : Finset String :=
  match processNotebook n with
  | Except.ok us => us.toFinset
  | Except.error _ => ∅

/-- The union of the URL sets of every parsed notebook of the directory,
as a multiset supremum so that it only depends on the entries up to
permutation. -/
def dirUrls (dir : List DirEntry) : Finset String :=
  (((dir.filterMap Prod.snd : List Notebook) : Multiset Notebook).map nbUrls).sup

/-- The loop invariant tying the Python variable `nb` to the accumulated
set: whatever `nb` holds was scanned successfully and its URLs are already
accumulated. -/
def StateInv (st : ScanState) : Prop :=
  ∀ n, st.nb = some n →
    ∃ us, processNotebook n = Except.ok us ∧ us.toFinset ⊆ st.urls

/-- Shape of every string the regex capture can produce: it starts with
`http://` or `https://`, has at least one character after the scheme, and
holds no quote character past the first post-scheme character. -/
def urlShapeL (cap : List Char) : Prop :=
  ∃ m, schemeLen cap = some m ∧ m < cap.length ∧
    ∀ c ∈ cap.drop (m + 1), isQuote c = false

/-- `urlShapeL` read on a string. -/
def urlShape (u : String) : Prop := urlShapeL u.toList

/-- No quote character occurs at or after the first occurrence of
`http://`/`https://` (vacuously `true` when no scheme occurs). -/
def noQuoteAfterScheme : List Char → Bool
  | [] => true
  | c :: cs =>
      if (schemeLen (c :: cs)).isSome then (c :: cs).all (fun d => !(isQuote d))
      else noQuoteAfterScheme cs

/-- Two distinct notebooks whose scan yields the same URL, matching the
spec's duplicate example. -/
def nbDupA : Notebook :=
  ⟨some [⟨some "code",
    some (CellSource.str "df = pd.read_csv('https://dup.example.com/d.csv')\n")⟩]⟩

def nbDupB : Notebook :=
  ⟨some [⟨some "code",
    some (CellSource.lines ["x = pd.read_csv(\"https://dup.example.com/d.csv\")"])⟩]⟩

/-- The state reached by scanning the two duplicate-yielding notebooks. -/
def stDup : ScanState := ⟨some nbDupB, {"https://dup.example.com/d.csv"}, []⟩

/-- A parsed notebook whose code line puts a quote character directly after
the scheme, so the non-greedy dot consumes it: `pd.read_csv('http://''`. -/
def nbQuote : Notebook :=
  ⟨some [⟨some "code", some (CellSource.lines ["x = pd.read_csv('http://''"])⟩]⟩

/-- The state reached by scanning `nbQuote`. -/
def stQuote : ScanState := ⟨some nbQuote, {"http://'"}, []⟩

/-- Notebooks for the enumeration-order experiment: each yields one URL. -/
def nbOrdA : Notebook :=
  ⟨some [⟨some "code", some (CellSource.lines ["pd.read_csv('http://a.com/a.csv')"])⟩]⟩

def nbOrdB : Notebook :=
  ⟨some [⟨some "code", some (CellSource.lines ["pd.read_csv('http://b.com/b.csv')"])⟩]⟩

/-- The states reached by scanning the two order-experiment directories. -/
def stOrd1 : ScanState :=
  ⟨some nbOrdB, {"http://a.com/a.csv", "http://b.com/b.csv"}, []⟩

def stOrd2 : ScanState :=
  ⟨some nbOrdA, {"http://b.com/b.csv", "http://a.com/a.csv"}, []⟩

theorem matchAt_eq_some_scheme (l : List Char) (m : Nat) (h : schemeLen l = some m) :
    matchAt l = (match findTerm (l.drop m) with
                 | none => none
                 | some k => some (l.take (m + k))) := by
  unfold matchAt
  rw [h]

theorem matchAt_eq_none_scheme (l : List Char) (h : schemeLen l = none) :
    matchAt l = none := by
  unfold matchAt
  rw [h]

theorem findTermAfter_spec (l : List Char) (j : Nat) (h : findTermAfter l = some j) :
    j < l.length ∧ ∀ c ∈ l.take j, isQuote c = false := by
  induction l generalizing j with
  | nil => simp [findTermAfter] at h
  | cons c cs ih =>
      unfold findTermAfter at h
      cases hq : isQuote c with
      | true =>
          rw [hq] at h
          simp at h
          subst h
          exact ⟨by simp, by simp⟩
      | false =>
          rw [hq] at h
          by_cases hn : c = '\n'
          · simp [hn] at h
          · simp only [Bool.false_eq_true, if_false, if_neg hn,
              Option.map_eq_some'] at h
            obtain ⟨j', hcs, hj⟩ := h
            obtain ⟨hlen, hqs⟩ := ih j' hcs
            subst hj
            refine ⟨by simpa using Nat.succ_lt_succ hlen, ?_⟩
            intro d hd
            rw [List.take_succ_cons] at hd
            rcases List.mem_cons.mp hd with h1 | h2
            · rw [h1]; exact hq
            · exact hqs d h2

theorem findTerm_spec (l : List Char) (k : Nat) (h : findTerm l = some k) :
    1 ≤ k ∧ k < l.length ∧ ∀ c ∈ (l.take k).drop 1, isQuote c = false := by
  cases l with
  | nil => simp [findTerm] at h
  | cons c cs =>
      have he : findTerm (c :: cs) =
          if c = '\n' then none else (findTermAfter cs).map (· + 1) := rfl
      rw [he] at h
      by_cases hn : c = '\n'
      · simp [hn] at h
      · rw [if_neg hn, Option.map_eq_some'] at h
        obtain ⟨j, hcs, hj⟩ := h
        obtain ⟨hlen, hqs⟩ := findTermAfter_spec cs j hcs
        subst hj
        refine ⟨Nat.succ_le_succ (Nat.zero_le j),
          by simpa using Nat.succ_lt_succ hlen, ?_⟩
        intro d hd
        -- (c :: cs.take j).drop 1 = cs.take j
        rw [List.take_succ_cons] at hd
        simp at hd
        exact hqs d hd

theorem schemeLen_cases (l : List Char) (m : Nat) (h : schemeLen l = some m) :
    ("https://".toList.isPrefixOf l = true ∧ m = 8) ∨
    ("https://".toList.isPrefixOf l = false ∧ "http://".toList.isPrefixOf l = true ∧
      m = 7) := by
  unfold schemeLen at h
  by_cases h1 : "https://".toList.isPrefixOf l
  · rw [if_pos h1] at h
    injection h with h
    exact Or.inl ⟨h1, h.symm⟩
  · rw [if_neg h1] at h
    by_cases h2 : "http://".toList.isPrefixOf l
    · rw [if_pos h2] at h
      injection h with h
      exact Or.inr ⟨Bool.not_eq_true _ ▸ eq_false_of_ne_true h1, h2, h.symm⟩
    · rw [if_neg h2] at h
      cases h

theorem schemeLen_take (l : List Char) (m n : Nat) (h : schemeLen l = some m)
    (hn : m ≤ n) : schemeLen (l.take n) = some m := by
  rcases schemeLen_cases l m h with ⟨h1, hm⟩ | ⟨h1, h2, hm⟩
  · subst hm
    have hp : "https://".toList <+: l := List.isPrefixOf_iff_prefix.mp h1
    have : "https://".toList <+: l.take n :=
      List.prefix_take_iff.mpr ⟨hp, by simpa using hn⟩
    unfold schemeLen
    rw [if_pos (List.isPrefixOf_iff_prefix.mpr this)]
  · subst hm
    have hp : "http://".toList <+: l := List.isPrefixOf_iff_prefix.mp h2
    have hpt : "http://".toList <+: l.take n :=
      List.prefix_take_iff.mpr ⟨hp, by simpa using hn⟩
    have hnot : ¬ ("https://".toList.isPrefixOf (l.take n) = true) := by
      intro hc
      have : "https://".toList <+: l :=
        (List.isPrefixOf_iff_prefix.mp hc).trans (List.take_prefix n l)
      rw [List.isPrefixOf_iff_prefix.mpr this] at h1
      cases h1
    unfold schemeLen
    rw [if_neg hnot, if_pos (List.isPrefixOf_iff_prefix.mpr hpt)]

theorem schemeLen_length_le (l : List Char) (m : Nat) (h : schemeLen l = some m) :
    m ≤ l.length := by
  rcases schemeLen_cases l m h with ⟨h1, hm⟩ | ⟨_, h2, hm⟩
  · subst hm
    simpa using (List.isPrefixOf_iff_prefix.mp h1).length_le
  · subst hm
    simpa using (List.isPrefixOf_iff_prefix.mp h2).length_le

theorem matchAt_shape (l cap : List Char) (h : matchAt l = some cap) :
    urlShapeL cap := by
  cases hs : schemeLen l with
  | none => rw [matchAt_eq_none_scheme l hs] at h; cases h
  | some m =>
      rw [matchAt_eq_some_scheme l m hs] at h
      cases hk : findTerm (l.drop m) with
      | none => rw [hk] at h; cases h
      | some k =>
          rw [hk] at h
          injection h with h
          obtain ⟨hk1, hklen, hkq⟩ := findTerm_spec _ k hk
          have hmlen : m ≤ l.length := schemeLen_length_le l m hs
          rw [List.length_drop] at hklen
          have hmk : m + k ≤ l.length := by omega
      /- the capture is `l.take (m + k)`; its scheme survives the take and its
         post-scheme tail is the one `findTerm` scanned -/
          refine ⟨m, ?_, ?_, ?_⟩
          · rw [← h]
            exact schemeLen_take l m (m + k) hs (by omega)
          · rw [← h, List.length_take]
            omega
          · intro d hd
            rw [← h] at hd
            rw [List.drop_take] at hd
            refine hkq d ?_
            rw [List.drop_take, List.drop_drop]
            have e1 : m + k - (m + 1) = k - 1 := by omega
            rw [e1] at hd
            exact hd

theorem reFirstAux_cons_some (c : Char) (cs cap : List Char)
    (h : matchAt (c :: cs) = some cap) : reFirstAux (c :: cs) = some cap := by
  have he : reFirstAux (c :: cs) =
      (match matchAt (c :: cs) with
       | some cap => some cap
       | none => reFirstAux cs) := rfl
  rw [he, h]

theorem reFirstAux_cons_none (c : Char) (cs : List Char)
    (h : matchAt (c :: cs) = none) : reFirstAux (c :: cs) = reFirstAux cs := by
  have he : reFirstAux (c :: cs) =
      (match matchAt (c :: cs) with
       | some cap => some cap
       | none => reFirstAux cs) := rfl
  rw [he, h]

theorem reFirstAux_shape (l cap : List Char) (h : reFirstAux l = some cap) :
    urlShapeL cap := by
  induction l with
  | nil => simp [reFirstAux] at h
  | cons c cs ih =>
      cases hm : matchAt (c :: cs) with
      | some cap' =>
          rw [reFirstAux_cons_some c cs cap' hm] at h
          injection h with h
          subst h
          exact matchAt_shape _ _ hm
      | none =>
          rw [reFirstAux_cons_none c cs hm] at h
          exact ih h

theorem reFirst_shape (line u : String) (h : reFirst line = some u) :
    urlShape u := by
  unfold reFirst at h
  rw [Option.map_eq_some'] at h
  obtain ⟨cap, hcap, hu⟩ := h
  have : u.toList = cap := by
    rw [← hu]
    exact List.toList_asString cap
  unfold urlShape
  rw [this]
  exact reFirstAux_shape _ _ hcap

theorem processLine_shape (line u : String)
    (h : processLine line = Except.ok (some u)) : urlShape u := by
  unfold processLine at h
  cases g1 : containsSub "pd.read_csv" line with
  | false => rw [g1] at h; simp at h
  | true =>
      rw [g1] at h
      cases g2 : (containsSub "https://" line || containsSub "http://" line) with
      | false => rw [g2] at h; simp at h
      | true =>
          rw [g2] at h
          cases hr : reFirst line with
          | none => rw [hr] at h; simp at h
          | some u' =>
              rw [hr] at h
              simp at h
              rw [← h]
              exact reFirst_shape line u' hr

theorem processLines_shape (ls : List String) (us : List String)
    (h : processLines ls = Except.ok us) : ∀ u ∈ us, urlShape u := by
  induction ls generalizing us with
  | nil =>
      simp only [processLines] at h
      injection h with h
      subst h
      simp
  | cons l ls ih =>
      simp only [processLines] at h
      cases hl : processLine l with
      | error e => rw [hl] at h; simp [Bind.bind, Except.bind] at h
      | ok uo =>
          rw [hl] at h
          cases hr : processLines ls with
          | error e => rw [hr] at h; simp [Bind.bind, Except.bind] at h
          | ok rest =>
              rw [hr] at h
              simp [Bind.bind, Except.bind, Pure.pure, Except.pure] at h
              cases uo with
              | none =>
                  simp at h
                  subst h
                  exact ih rest hr
              | some v =>
                  simp at h
                  subst h
                  intro u hu
                  rcases List.mem_cons.mp hu with h1 | h2
                  · subst h1
                    exact processLine_shape l u hl
                  · exact ih rest hr u h2

theorem processCell_shape (cell : Cell) (us : List String)
    (h : processCell cell = Except.ok us) : ∀ u ∈ us, urlShape u := by
  unfold processCell at h
  cases hct : cell.cellType with
  | none => rw [hct] at h; simp [getKey, Bind.bind, Except.bind] at h
  | some ct =>
      rw [hct] at h
      simp only [getKey, Bind.bind, Except.bind] at h
      by_cases hcode : ct = "code"
      · rw [if_neg (by simp [hcode])] at h
        cases hsrc : cell.src with
        | none => rw [hsrc] at h; simp [getKey] at h
        | some s =>
            rw [hsrc] at h
            simp only [getKey] at h
            cases s with
            | str t =>
                replace h : (if t = "" then pure [] else
                    processLines (splitNl t) : Except RunError (List String)) =
                    Except.ok us := h
                by_cases ht : t = ""
                · rw [if_pos ht] at h
                  simp [Pure.pure, Except.pure] at h
                  subst h
                  simp
                · rw [if_neg ht] at h
                  exact processLines_shape _ us h
            | lines ls =>
                replace h : (if ls = [] then pure [] else
                    processLines ls : Except RunError (List String)) =
                    Except.ok us := h
                by_cases hls : ls = []
                · rw [if_pos hls] at h
                  simp [Pure.pure, Except.pure] at h
                  subst h
                  simp
                · rw [if_neg hls] at h
                  exact processLines_shape _ us h
      · rw [if_pos (by simp [hcode])] at h
        simp [Pure.pure, Except.pure] at h
        subst h
        simp

theorem processCells_shape (cs : List Cell) (us : List String)
    (h : processCells cs = Except.ok us) : ∀ u ∈ us, urlShape u := by
  induction cs generalizing us with
  | nil =>
      simp only [processCells] at h
      injection h with h
      subst h
      simp
  | cons c cs ih =>
      simp only [processCells] at h
      cases hc : processCell c with
      | error e => rw [hc] at h; simp [Bind.bind, Except.bind] at h
      | ok us1 =>
          rw [hc] at h
          cases hr : processCells cs with
          | error e => rw [hr] at h; simp [Bind.bind, Except.bind] at h
          | ok us2 =>
              rw [hr] at h
              simp [Bind.bind, Except.bind, Pure.pure, Except.pure] at h
              subst h
              intro u hu
              rcases List.mem_append.mp hu with h1 | h2
              · exact processCell_shape c us1 hc u h1
              · exact ih us2 hr u h2

theorem processNotebook_shape (n : Notebook) (us : List String)
    (h : processNotebook n = Except.ok us) : ∀ u ∈ us, urlShape u :=
  processCells_shape _ us h

theorem stepFile_parsed (st : ScanState) (name : String) (n : Notebook) :
    stepFile st (name, some n) =
      (match processNotebook n with
       | Except.error e => Except.error e
       | Except.ok us =>
           Except.ok ⟨some n, st.urls ∪ us.toFinset, st.removed⟩) := rfl

theorem stepFile_corrupt_unbound (st : ScanState) (name : String)
    (h : st.nb = none) : stepFile st (name, none) = Except.error RunError.nameError := by
  simp [stepFile, h]

theorem stepFile_corrupt_bound (st : ScanState) (name : String) (n : Notebook)
    (h : st.nb = some n) :
    stepFile st (name, none) =
      (match processNotebook n with
       | Except.error e => Except.error e
       | Except.ok us =>
           Except.ok ⟨some n, st.urls ∪ us.toFinset, st.removed ++ [name]⟩) := by
  simp [stepFile, h]

/-- Any successful step unions the URLs of a successfully scanned notebook
into the accumulator and leaves `nb` bound to that notebook. -/
theorem stepFile_ok (st st' : ScanState) (e : DirEntry)
    (h : stepFile st e = Except.ok st') :
    ∃ n us, processNotebook n = Except.ok us ∧ st'.nb = some n ∧
      st'.urls = st.urls ∪ us.toFinset := by
  obtain ⟨name, p⟩ := e
  cases p with
  | some n =>
      rw [stepFile_parsed] at h
      cases hp : processNotebook n with
      | error e => rw [hp] at h; cases h
      | ok us =>
          rw [hp] at h
          injection h with h
          exact ⟨n, us, hp, by rw [← h], by rw [← h]⟩
  | none =>
      cases hnb : st.nb with
      | none => rw [stepFile_corrupt_unbound st name hnb] at h; cases h
      | some n =>
          rw [stepFile_corrupt_bound st name n hnb] at h
          cases hp : processNotebook n with
          | error e => rw [hp] at h; cases h
          | ok us =>
              rw [hp] at h
              injection h with h
              exact ⟨n, us, hp, by rw [← h], by rw [← h]⟩

theorem runScanFrom_cons_ok (st st' : ScanState) (e : DirEntry) (es : List DirEntry)
    (h : stepFile st e = Except.ok st') :
    runScanFrom st (e :: es) = runScanFrom st' es := by
  have he : runScanFrom st (e :: es) =
      (match stepFile st e with
       | Except.error err => Except.error err
       | Except.ok st' => runScanFrom st' es) := rfl
  rw [he, h]

theorem runScanFrom_cons_error (st : ScanState) (e : DirEntry) (es : List DirEntry)
    (err : RunError) (h : stepFile st e = Except.error err) :
    runScanFrom st (e :: es) = Except.error err := by
  have he : runScanFrom st (e :: es) =
      (match stepFile st e with
       | Except.error err => Except.error err
       | Except.ok st' => runScanFrom st' es) := rfl
  rw [he, h]

theorem runScanFrom_shape (dir : List DirEntry) :
    ∀ st s : ScanState, (∀ u ∈ st.urls, urlShape u) →
      runScanFrom st dir = Except.ok s → ∀ u ∈ s.urls, urlShape u := by
  induction dir with
  | nil =>
      intro st s hst h
      simp only [runScanFrom] at h
      injection h with h
      subst h
      exact hst
  | cons e es ih =>
      intro st s hst h
      cases hsf : stepFile st e with
      | error err => rw [runScanFrom_cons_error st e es err hsf] at h; cases h
      | ok st' =>
          rw [runScanFrom_cons_ok st st' e es hsf] at h
          obtain ⟨n, us, hp, _, hurls⟩ := stepFile_ok st st' e hsf
          refine ih st' s ?_ h
          intro u hu
          rw [hurls] at hu
          rcases Finset.mem_union.mp hu with h1 | h2
          · exact hst u h1
          · exact processNotebook_shape n us hp u (List.mem_toFinset.mp h2)

theorem dirUrls_nil : dirUrls [] = ∅ := by
  simp [dirUrls, Multiset.sup_zero, Finset.bot_eq_empty]

theorem dirUrls_cons_some (name : String) (n : Notebook) (es : List DirEntry) :
    dirUrls ((name, some n) :: es) = nbUrls n ∪ dirUrls es := by
  simp [dirUrls, List.filterMap_cons, Multiset.sup_cons, Finset.sup_eq_union]

theorem dirUrls_cons_none (name : String) (es : List DirEntry) :
    dirUrls ((name, none) :: es) = dirUrls es := by
  simp [dirUrls, List.filterMap_cons]

theorem runScanFrom_urls (dir : List DirEntry) :
    ∀ st s : ScanState, StateInv st → runScanFrom st dir = Except.ok s →
      s.urls = st.urls ∪ dirUrls dir := by
  induction dir with
  | nil =>
      intro st s _ h
      simp only [runScanFrom] at h
      injection h with h
      subst h
      rw [dirUrls_nil, Finset.union_empty]
  | cons e es ih =>
      intro st s hinv h
      obtain ⟨name, p⟩ := e
      cases p with
      | some n =>
          cases hp : processNotebook n with
          | error err =>
              have hsf : stepFile st (name, some n) = Except.error err := by
                rw [stepFile_parsed, hp]
              rw [runScanFrom_cons_error st _ es err hsf] at h
              cases h
          | ok us =>
              have hsf : stepFile st (name, some n) =
                  Except.ok ⟨some n, st.urls ∪ us.toFinset, st.removed⟩ := by
                rw [stepFile_parsed, hp]
              rw [runScanFrom_cons_ok st _ _ es hsf] at h
              have hinv' : StateInv ⟨some n, st.urls ∪ us.toFinset, st.removed⟩ := by
                intro n' hn'
                injection hn' with hn'
                subst hn'
                exact ⟨us, hp, by simp⟩
              have hs := ih _ s hinv' h
              rw [hs, dirUrls_cons_some]
              have hnb : nbUrls n = us.toFinset := by
                unfold nbUrls
                rw [hp]
              rw [hnb]
              simp [Finset.union_assoc]
      | none =>
          cases hnb : st.nb with
          | none =>
              rw [runScanFrom_cons_error st _ es RunError.nameError
                (stepFile_corrupt_unbound st name hnb)] at h
              cases h
          | some n =>
              obtain ⟨us, hp, hsub⟩ := hinv n hnb
              have hsf : stepFile st (name, none) =
                  Except.ok ⟨some n, st.urls ∪ us.toFinset, st.removed ++ [name]⟩ := by
                rw [stepFile_corrupt_bound st name n hnb, hp]
              rw [runScanFrom_cons_ok st _ _ es hsf] at h
              have hun : st.urls ∪ us.toFinset = st.urls :=
                Finset.union_eq_left.mpr hsub
              have hinv' : StateInv
                  ⟨some n, st.urls ∪ us.toFinset, st.removed ++ [name]⟩ := by
                intro n' hn'
                injection hn' with hn'
                subst hn'
                exact ⟨us, hp, by simp⟩
              have hs := ih _ s hinv' h
              rw [hs, dirUrls_cons_none]
              simp [hun]

theorem runScan_urls (dir : List DirEntry) (s : ScanState)
    (h : runScan dir = Except.ok s) : s.urls = dirUrls dir := by
  have hinv : StateInv initState := by
    intro n hn
    simp [initState] at hn
  have hs := runScanFrom_urls dir initState s hinv h
  simpa [initState] using hs

/-- C1: the scan loop has no `continue` after deleting a corrupt file.  When
the very first directory entry fails to parse, the variable `nb` was never
bound, so `nb.get("cells", [])` raises an uncaught `NameError` and the run
aborts instead of continuing with the remaining entries. -/
theorem c1_corrupt_first_entry_aborts :
    runScan [("nb_0001.ipynb", (none : Option Notebook))] =
      Except.error RunError.nameError := rfl

/-- C2 counterexample: scanning a successfully parsed notebook one of whose
cells is missing the `cell_type` key raises an uncaught `KeyError` (bracket
access `cell["cell_type"]` does not default), refuting the claim that absent
cell fields are tolerated. -/
theorem c2_missing_cell_type_raises :
    runScan [("nb.ipynb", some ⟨some [⟨none, none⟩]⟩)] =
      Except.error RunError.keyError := rfl

/-- C2 amended: a notebook with no `"cells"` field is tolerated (the read
defaults to the empty sequence, yielding no URLs and no error), but a cell
missing `cell_type`, or a code cell missing `source`, raises an uncaught
`KeyError`. -/
theorem c2_field_defaulting :
    (∀ nb : Notebook, nb.cells = none → processNotebook nb = Except.ok []) ∧
    (∀ (c : Cell) (cs : List Cell), c.cellType = none →
      processNotebook ⟨some (c :: cs)⟩ = Except.error RunError.keyError) ∧
    (∀ (c : Cell) (cs : List Cell), c.cellType = some "code" → c.src = none →
      processNotebook ⟨some (c :: cs)⟩ = Except.error RunError.keyError) := by
  refine ⟨?_, ?_, ?_⟩
  · intro nb h
    simp [processNotebook, h, processCells]
  · intro c cs h
    simp [processNotebook, processCells, processCell, h, getKey, Bind.bind, Except.bind]
  · intro c cs h1 h2
    simp [processNotebook, processCells, processCell, h1, h2, getKey, Bind.bind,
      Except.bind]

/-- C2 witness: the amended claim applied to the empty-`cells` notebook, to a
cell with no `cell_type`, and to a code cell with no `source`. -/
theorem c2_field_defaulting_witness :
    processNotebook ⟨none⟩ = Except.ok [] ∧
    processNotebook ⟨some [⟨none, some (CellSource.str "x")⟩]⟩ =
      Except.error RunError.keyError ∧
    processNotebook ⟨some [⟨some "code", none⟩]⟩ =
      Except.error RunError.keyError :=
  ⟨c2_field_defaulting.1 ⟨none⟩ rfl,
   c2_field_defaulting.2.1 ⟨none, some (CellSource.str "x")⟩ [] rfl,
   c2_field_defaulting.2.2 ⟨some "code", none⟩ [] rfl rfl⟩

theorem findTermAfter_eq_none (l : List Char) (h : ∀ c ∈ l, isQuote c = false) :
    findTermAfter l = none := by
  induction l with
  | nil => rfl
  | cons c cs ih =>
      have hc : isQuote c = false := h c (by simp)
      simp [findTermAfter, hc, ih (fun d hd => h d (by simp [hd]))]

theorem findTerm_eq_none (l : List Char) (h : ∀ c ∈ l, isQuote c = false) :
    findTerm l = none := by
  cases l with
  | nil => rfl
  | cons c cs =>
      simp [findTerm, findTermAfter_eq_none cs (fun d hd => h d (by simp [hd]))]

theorem matchAt_eq_none_of_no_quote (l : List Char) (h : ∀ c ∈ l, isQuote c = false) :
    matchAt l = none := by
  cases hs : schemeLen l with
  | none => exact matchAt_eq_none_scheme l hs
  | some m =>
      rw [matchAt_eq_some_scheme l m hs,
        findTerm_eq_none (l.drop m) (fun d hd => h d (List.drop_subset m l hd))]

theorem reFirstAux_eq_none_of_no_quote (l : List Char)
    (h : ∀ c ∈ l, isQuote c = false) : reFirstAux l = none := by
  induction l with
  | nil => rfl
  | cons c cs ih =>
      unfold reFirstAux
      rw [matchAt_eq_none_of_no_quote _ h]
      exact ih (fun d hd => h d (by simp [hd]))

theorem reFirstAux_eq_none_of_noQuoteAfterScheme (l : List Char)
    (h : noQuoteAfterScheme l = true) : reFirstAux l = none := by
  induction l with
  | nil => rfl
  | cons c cs ih =>
      unfold noQuoteAfterScheme at h
      by_cases hs : (schemeLen (c :: cs)).isSome
      · rw [if_pos hs] at h
        refine reFirstAux_eq_none_of_no_quote _ (fun d hd => ?_)
        have := List.all_eq_true.mp h d hd
        simpa using this
      · rw [if_neg hs] at h
        have hnone : schemeLen (c :: cs) = none :=
          Option.not_isSome_iff_eq_none.mp hs
        unfold reFirstAux
        rw [matchAt_eq_none_scheme _ hnone]
        exact ih h

/-- C3: when a line passes both substring checks but no quote character
follows the (first occurrence of the) URL scheme, the regex finds no match,
the unguarded `[0]` lookup raises `IndexError`, and a run over a notebook
holding such a line aborts with that error. -/
theorem c3_no_terminating_quote_raises (line : String)
    (h1 : containsSub "pd.read_csv" line = true)
    (h2 : containsSub "https://" line = true ∨ containsSub "http://" line = true)
    (h3 : noQuoteAfterScheme line.toList = true) :
    reFirst line = none ∧
    processLine line = Except.error RunError.indexError ∧
    runScan [("nb.ipynb",
        some ⟨some [⟨some "code", some (CellSource.lines [line])⟩]⟩)] =
      Except.error RunError.indexError := by
  have hre : reFirst line = none := by
    unfold reFirst
    rw [reFirstAux_eq_none_of_noQuoteAfterScheme _ h3]
    rfl
  have hor : (containsSub "https://" line || containsSub "http://" line) = true := by
    rcases h2 with h2 | h2 <;> simp [h2]
  have hpl : processLine line = Except.error RunError.indexError := by
    simp [processLine, h1, hor, hre]
  refine ⟨hre, hpl, ?_⟩
  simp [runScan, runScanFrom, stepFile, processNotebook, processCells, processCell,
    getKey, processLines, hpl, Bind.bind, Except.bind, initState]

/-- C3 witness: the line `pd.read_csv(http://x` passes both substring checks,
has no quote after the scheme, and aborts extraction and the run. -/
theorem c3_no_terminating_quote_raises_witness :
    reFirst "pd.read_csv(http://x" = none ∧
    processLine "pd.read_csv(http://x" = Except.error RunError.indexError ∧
    runScan [("nb.ipynb",
        some ⟨some [⟨some "code", some (CellSource.lines ["pd.read_csv(http://x"])⟩]⟩)] =
      Except.error RunError.indexError :=
  c3_no_terminating_quote_raises "pd.read_csv(http://x" (by decide)
    (Or.inr (by decide)) (by decide)

/-- C4: for a code cell whose `source` is the single string
`"df = pd.read_csv('https://example.com/data.csv')\n"` the extracted URL is
`https://example.com/data.csv` (split on newlines; the match stops just
before the closing quote), and the same extraction applies when `source` is
already a sequence of line strings. -/
theorem c4_example_extraction :
    processCell ⟨some "code",
        some (CellSource.str "df = pd.read_csv('https://example.com/data.csv')\n")⟩ =
      Except.ok ["https://example.com/data.csv"] ∧
    processCell ⟨some "code",
        some (CellSource.lines ["df = pd.read_csv(\"http://a.com/x.csv\")"])⟩ =
      Except.ok ["http://a.com/x.csv"] :=
  ⟨rfl, rfl⟩

/-- C5: a line passing the substring checks contributes at most one URL to
the set — only the first regex match is looked up — even when the line holds
several quoted http(s) URLs, as the concrete two-URL line shows. -/
theorem c5_first_match_only :
    (∀ (line : String) (us : List String),
      processLines [line] = Except.ok us → us.length ≤ 1) ∧
    processLine "pd.read_csv('http://a.com/1.csv');pd.read_csv('http://b.com/2.csv')" =
      Except.ok (some "http://a.com/1.csv") := by
  constructor
  · intro line us h
    simp only [processLines] at h
    cases hl : processLine line with
    | error e =>
        rw [hl] at h
        simp [Bind.bind, Except.bind] at h
    | ok u =>
        rw [hl] at h
        simp [Bind.bind, Except.bind, Pure.pure, Except.pure] at h
        cases u with
        | none =>
            simp at h
            subst h
            simp
        | some v =>
            simp at h
            subst h
            simp
  · rfl

/-- C5 witness: the general bound applied to a concrete line that passes the
substring checks and yields one URL. -/
theorem c5_first_match_only_witness :
    (["http://a.com/1.csv"] : List String).length ≤ 1 :=
  c5_first_match_only.1
    "pd.read_csv('http://a.com/1.csv');pd.read_csv('http://b.com/2.csv')"
    ["http://a.com/1.csv"] rfl

/-- C6: a line contributes a URL only when it contains both the literal
substring `pd.read_csv` and one of `https://`, `http://`; whenever either
guard fails, the line contributes nothing. -/
theorem c6_substring_guards (line : String)
    (h : containsSub "pd.read_csv" line = false ∨
      (containsSub "https://" line = false ∧ containsSub "http://" line = false)) :
    processLine line = Except.ok none := by
  unfold processLine
  rcases h with h | ⟨h1, h2⟩
  · rw [h]
    rfl
  · rw [h1, h2]
    cases containsSub "pd.read_csv" line <;> rfl

/-- C6 witness: a line calling `pd.read_csv` on a local path (no `http(s)://`
substring) contributes no URL. -/
theorem c6_substring_guards_witness :
    processLine "df = pd.read_csv(\"data/local.csv\")" = Except.ok none :=
  c6_substring_guards "df = pd.read_csv(\"data/local.csv\")"
    (Or.inr ⟨by decide, by decide⟩)

/-- C7: a cell whose `cell_type` is present but not exactly `"code"` is never
scanned: its source, whatever it holds, contributes no URLs and no error. -/
theorem c7_non_code_skipped (cell : Cell) (ct : String)
    (h1 : cell.cellType = some ct) (h2 : ct ≠ "code") :
    processCell cell = Except.ok [] := by
  simp [processCell, h1, getKey, h2, Bind.bind, Except.bind, Pure.pure, Except.pure]

theorem runScan_dup : runScan [("a.ipynb", some nbDupA), ("b.ipynb", some nbDupB)] =
    Except.ok stDup := rfl

/-- C8: after a completed run the output holds exactly the distinct
accumulated URLs — sorted ascending, without duplicates, each set member
exactly once — and the file contents are those lines each terminated by a
newline (the file is opened for writing, so prior contents are replaced). -/
theorem c8_output_sorted_dedup (dir : List DirEntry) (st : ScanState)
    (h : runScan dir = Except.ok st) :
    List.Sorted (· ≤ ·) (sortedUrls st.urls) ∧
    (sortedUrls st.urls).Nodup ∧
    (∀ u, u ∈ sortedUrls st.urls ↔ u ∈ st.urls) ∧
    (∀ u ∈ st.urls, (sortedUrls st.urls).count u = 1) ∧
    outputContent st.urls = String.join ((sortedUrls st.urls).map (fun u => u ++ "\n")) :=
  ⟨Finset.sort_sorted _ _, Finset.sort_nodup _ _, fun _ => Finset.mem_sort _,
   fun _ hu => List.count_eq_one_of_mem (Finset.sort_nodup _ _)
     ((Finset.mem_sort _).mpr hu),
   rfl⟩

/-- C8 witness: the guarantees instantiated on the run over two different
files that both yield `https://dup.example.com/d.csv`. -/
theorem c8_output_sorted_dedup_witness :
    List.Sorted (· ≤ ·) (sortedUrls stDup.urls) ∧
    (sortedUrls stDup.urls).Nodup ∧
    (∀ u, u ∈ sortedUrls stDup.urls ↔ u ∈ stDup.urls) ∧
    (∀ u ∈ stDup.urls, (sortedUrls stDup.urls).count u = 1) ∧
    outputContent stDup.urls =
      String.join ((sortedUrls stDup.urls).map (fun u => u ++ "\n")) :=
  c8_output_sorted_dedup [("a.ipynb", some nbDupA), ("b.ipynb", some nbDupB)]
    stDup runScan_dup

/-- C7 witness: a markdown cell containing `pd.read_csv`-like text and a URL
is skipped. -/
theorem c7_non_code_skipped_witness :
    processCell ⟨some "markdown",
        some (CellSource.str "pd.read_csv('https://example.com/data.csv')")⟩ =
      Except.ok [] :=
  c7_non_code_skipped
    ⟨some "markdown",
      some (CellSource.str "pd.read_csv('https://example.com/data.csv')")⟩
    "markdown" rfl (by decide)

theorem runScan_quote : runScan [("f.ipynb", some nbQuote)] = Except.ok stQuote := rfl

/-- C9 counterexample: the non-greedy `.+?` must consume at least one
character before the terminating quote, so a quote directly after the scheme
is captured.  The run over `nbQuote` completes and writes the single line
`http://'`, which contains a quote character — refuting the claim that no
written URL contains a quote. -/
theorem c9_quote_in_url_counterexample :
    runScan [("f.ipynb", some nbQuote)] = Except.ok stQuote ∧
    sortedUrls stQuote.urls = ["http://'"] ∧
    "http://'".toList.any isQuote = true := by
  refine ⟨rfl, ?_, by decide⟩
  unfold sortedUrls
  exact Finset.sort_singleton _ _

/-- C9 amended: every URL accumulated by a completed run begins with
`http://` or `https://` and has at least one character after the scheme, and
no quote character occurs past the first character following the scheme (the
first post-scheme character itself may be a quote, consumed by the
non-greedy dot). -/
theorem c9_url_shape (dir : List DirEntry) (st : ScanState) (u : String)
    (h : runScan dir = Except.ok st) (hu : u ∈ st.urls) : urlShape u := by
  refine runScanFrom_shape dir initState st ?_ h u hu
  intro v hv
  simp [initState] at hv

/-- C9 witness: the amended shape at the URL `http://'` produced by the run
over `nbQuote`. -/
theorem c9_url_shape_witness : urlShape "http://'" :=
  c9_url_shape [("f.ipynb", some nbQuote)] stQuote "http://'" rfl (by decide)

/-- C10: runs over directory listings holding the same entries in different
orders that both complete produce the same URL set and hence the same output
file contents (set accumulation plus the final sort). -/
theorem c10_order_independent (d1 d2 : List DirEntry) (s1 s2 : ScanState)
    (hp : d1.Perm d2) (h1 : runScan d1 = Except.ok s1)
    (h2 : runScan d2 = Except.ok s2) :
    s1.urls = s2.urls ∧ sortedUrls s1.urls = sortedUrls s2.urls ∧
    outputContent s1.urls = outputContent s2.urls := by
  have hu : s1.urls = s2.urls := by
    rw [runScan_urls d1 s1 h1, runScan_urls d2 s2 h2]
    unfold dirUrls
    rw [Multiset.coe_eq_coe.mpr (hp.filterMap Prod.snd)]
  exact ⟨hu, by rw [hu], by rw [hu]⟩

/-- C10 witness: the two-entry directory scanned in both orders yields the
same URL set and output contents. -/
theorem c10_order_independent_witness :
    stOrd1.urls = stOrd2.urls ∧ sortedUrls stOrd1.urls = sortedUrls stOrd2.urls ∧
    outputContent stOrd1.urls = outputContent stOrd2.urls :=
  c10_order_independent
    [("a.ipynb", some nbOrdA), ("b.ipynb", some nbOrdB)]
    [("b.ipynb", some nbOrdB), ("a.ipynb", some nbOrdA)]
    stOrd1 stOrd2 (List.Perm.swap _ _ _) rfl rfl
